import Mathlib

/-!
# Lesson-shop cart/checkout engine and catalog service: a shallow embedding

This file embeds the client-side cart/checkout engine (`src/js/main.js`,
`src/Full Stack Frontend/main.js`, `src/unnamed/part_000`) and the
catalog/order service request handlers (`src/Full Stack Backend/server.js`)
of the lesson-shop repository, and proves properties of them.

Modelling conventions:
* JS numbers holding integer values are modelled as `Int` (so a `spaces--`
  below zero is representable, as it is in JS).
* Lesson identifiers on the client are opaque; they are modelled as `Nat`.
  On the server they are MongoDB ObjectId strings, modelled as `String`
  in canonical hex form.
* A cart item is a spread copy (`{ ...lesson }`) of a lesson, hence it has
  the type of a lesson.
* Mutation of the objects held by the reactive `lessons` array becomes
  first-match functional update of a `List Lesson` keyed by `_id`, exactly
  mirroring `lessons.value.find(l => l._id === id)` followed by a field
  mutation of the found object.
-/

/-- A lesson record as held in the client's `lessons` array
(`lessonsData` in `src/js/main.js`): identifier, subject, location,
price, remaining spaces, icon/image reference. -/
structure Lesson where
  _id : Nat
  subject : String
  location : String
  price : Int
  spaces : Int
  icon : String
deriving Repr, DecidableEq

/-- The client application state relevant to the cart/checkout engine:
the `lessons` ref, the `cart` ref (spread copies of lessons, one entry per
unit), and the two checkout-form fields. -/
structure AppState where
  lessons : List Lesson
  cart : List Lesson
  formName : String
  formPhone : String
deriving Repr, DecidableEq

/-- `lessons.value.find(l => l._id === id)`: first lesson with the given
identifier, if any. -/
def findLesson : List Lesson → Nat → Option Lesson
  | [], _ => none
  | l :: rest, id => if l._id = id then some l else findLesson rest id

/-- Mutation of the first lesson matching `id` (the object returned by
`find`), as a functional update of the list. -/
def updateFirstById : List Lesson → Nat → (Lesson → Lesson) → List Lesson
  | [], _, _ => []
  | l :: rest, id, f =>
      if l._id = id then f l :: rest else l :: updateFirstById rest id f

/-- `lessonInList.spaces--` on the first lesson matching `id`. -/
def decrementSpaces (ls : List Lesson) (id : Nat) : List Lesson :=
  updateFirstById ls id (fun l => { l with spaces := l.spaces - 1 })

/-- `originalLesson.spaces++` on the first lesson matching `id`. -/
def incrementSpaces (ls : List Lesson) (id : Nat) : List Lesson :=
  updateFirstById ls id (fun l => { l with spaces := l.spaces + 1 })

/-- The `spaces` field of the first lesson matching `id`, if any. -/
def lookupSpaces (ls : List Lesson) (id : Nat) : Option Int :=
  (findLesson ls id).map Lesson.spaces

/-- `addToCart(lesson)`: if the lesson (looked up in the `lessons` array by
its `_id`, as in the Full Stack Frontend and unnamed variants; in
`src/js/main.js` the argument is that array element itself) has
`spaces > 0`, push a spread copy onto the cart and decrement the lesson's
`spaces`; otherwise do nothing.  Local-only: no network parameter. -/
def addToCart (s : AppState) (id : Nat) : AppState :=
  match findLesson s.lessons id with
  | some l =>
      if 0 < l.spaces then
        { s with cart := s.cart ++ [l], lessons := decrementSpaces s.lessons id }
      else s
  | none => s

/-- `cart.value.splice(cartIndex, 1)` after `findIndex`: remove the first
cart entry whose `_id` matches; if none matches (`cartIndex === -1`),
leave the cart alone. -/
def removeFirstCart : List Lesson → Nat → List Lesson
  | [], _ => []
  | c :: rest, id => if c._id = id then rest else c :: removeFirstCart rest id

/-- `removeFromCart(cartItem)`: increment the matching lesson's `spaces`
(when the lesson is found in the `lessons` array), then remove the first
cart entry with that `_id` (when one exists).  The two steps are not linked:
the increment happens whether or not a cart entry is removed. -/
def removeFromCart (s : AppState) (id : Nat) : AppState :=
  let lessons' :=
    match findLesson s.lessons id with
    | some _ => incrementSpaces s.lessons id
    | none => s.lessons
  { s with lessons := lessons', cart := removeFirstCart s.cart id }

/-! ## Sample data (from `lessonsData` in `src/js/main.js`) -/

/-- The first entry of `lessonsData`. -/
def mathsLesson : Lesson :=
  { _id := 101, subject := "Mathematics", location := "Hendon",
    price := 100, spaces := 5, icon := "fas fa-calculator" }

/-- The second entry of `lessonsData`. -/
def englishLesson : Lesson :=
  { _id := 102, subject := "English Language", location := "Colindale",
    price := 90, spaces := 5, icon := "fas fa-book-open" }

/-- An `English Language` lesson with no remaining spaces. -/
def soldOutLesson : Lesson := { englishLesson with spaces := 0 }


/-! ## Checkout form validation (`isCheckoutFormValid`)

The two regexes of the source are `^[A-Za-z\s]+$` for the name and `^\d+$`
for the phone.  Character classes are embedded through code points:
`A`–`Z` is 65–90, `a`–`z` is 97–122, `0`–`9` is 48–57, and `\s` is modelled
by its ASCII members (space 32, tab 9, LF 10, VT 11, FF 12, CR 13); the
Unicode space characters JS additionally puts in `\s` play no role in any
property proved here. -/

/-- `[A-Z]`. -/
def isUpperAZ (c : Char) : Bool := 65 ≤ c.toNat && c.toNat ≤ 90

/-- `[a-z]`. -/
def isLowerAZ (c : Char) : Bool := 97 ≤ c.toNat && c.toNat ≤ 122

/-- `\d`, i.e. `[0-9]`. -/
def isDigitChar (c : Char) : Bool := 48 ≤ c.toNat && c.toNat ≤ 57

/-- `\s`, restricted to its ASCII members. -/
def isJsSpace (c : Char) : Bool :=
  c.toNat = 32 || c.toNat = 9 || c.toNat = 10 || c.toNat = 11 ||
  c.toNat = 12 || c.toNat = 13

/-- The class `[A-Za-z\s]` of the name regex. -/
def isNameChar (c : Char) : Bool := isUpperAZ c || isLowerAZ c || isJsSpace c

/-- `regex.test(s)` for an anchored one-or-more class regex `^[..]+$`:
`s` is nonempty and every character is in the class. -/
def matchesPlus (p : Char → Bool) (s : String) : Bool :=
  !s.data.isEmpty && s.data.all p

/-- `nameRegex.test(name)` with `nameRegex = /^[A-Za-z\s]+$/`. -/
def nameMatches (s : String) : Bool := matchesPlus isNameChar s

/-- `phoneRegex.test(phone)` with `phoneRegex = /^\d+$/`. -/
def phoneMatches (s : String) : Bool := matchesPlus isDigitChar s

/-- `isCheckoutFormValid`: both regexes must accept. -/
def isCheckoutFormValid (name phone : String) : Bool :=
  nameMatches name && phoneMatches phone


/-! ## Order payload and `submitOrder`

`submitOrder` differs between the variants only in the shape of the
`lessons` field of the order payload: `src/js/main.js` maps each cart item
to the object `{ lessonId: item._id, spaces: 1 }`, while the
Full Stack Frontend and unnamed variants map each cart item to the bare
identifier `item._id`.  Both shapes are captured by one inductive of
JSON-value shapes. -/

/-- One element of the order payload's `lessons` array: either a bare
lesson identifier (Full Stack Frontend / unnamed variants) or an object
`{ lessonId, spaces }` (`src/js/main.js`). -/
inductive OrderLine where
  | bareId (id : Nat)
  | idWithSpaces (lessonId : Nat) (spaces : Int)
deriving Repr, DecidableEq

/-- The lesson identifier an order line carries, whichever its shape. -/
def lineId : OrderLine → Nat
  | .bareId id => id
  | .idWithSpaces id _ => id

/-- `cart.value.map(item => ({ lessonId: item._id, spaces: 1 }))`
from `src/js/main.js`. -/
def orderLinesJs (cart : List Lesson) : List OrderLine :=
  cart.map fun item => .idWithSpaces item._id 1

/-- `cart.value.map(item => item._id)` from the Full Stack Frontend and
unnamed variants. -/
def orderLinesFS (cart : List Lesson) : List OrderLine :=
  cart.map fun item => .bareId item._id

/-- Modelled from the spec: the `lessons` field the spec describes,
"a list of lesson identifiers, one identifier per cart entry". -/
def orderLinesSpec (cart : List Lesson) : List OrderLine :=
  cart.map fun item => .bareId item._id

/-- The JSON body POSTed to `/orders`. -/
structure OrderPayload where
  name : String
  phone : String
  lessons : List OrderLine
deriving Repr, DecidableEq

/-- Whether a key is already present in the accumulator object of the
`spaceUpdates` reduce. -/
def hasKey : List (Nat × Int) → Nat → Bool
  | [], _ => false
  | p :: rest, id => if p.1 = id then true else hasKey rest id

/-- The `spaceUpdates` reduce of `submitOrder`: walk the cart; on the first
occurrence of each `_id`, look the lesson up in the local `lessons` array
and record `{ spaces: originalLesson.spaces }` under that id.  `none`
models the `TypeError` the JS throws (outside any `try`) when a cart item's
id is absent from `lessons` (`originalLesson` is `undefined`). -/
def spaceUpdates (lessons : List Lesson) : List Lesson → List (Nat × Int) → Option (List (Nat × Int))
  | [], acc => some acc
  | item :: rest, acc =>
      if hasKey acc item._id then spaceUpdates lessons rest acc
      else
        match findLesson lessons item._id with
        | some l => spaceUpdates lessons rest (acc ++ [(item._id, l.spaces)])
        | none => none

/-- The network's answers to the calls `submitOrder` can make: whether the
`POST /orders` fetch resolves, and whether the `PUT /lessons/:id` fetch for
a given id resolves. -/
structure Network where
  postOk : Bool
  putOk : Nat → Bool

/-- How a `submitOrder` invocation ends: validation fail-fast, the
uncaught `TypeError` of the reduce, the `catch` branch (error alert), or
the success branch (confirmation alert). -/
inductive SubmitOutcome where
  | invalid
  | crash
  | networkError
  | success
deriving Repr, DecidableEq

/-- What a `submitOrder` invocation did: the state it leaves behind, how it
ended, the order payload POSTed (if the POST was issued), and the
space-update PUT calls issued, as `(lesson id, spaces value sent)`. -/
structure SubmitResult where
  state : AppState
  outcome : SubmitOutcome
  posted : Option OrderPayload
  putCalls : List (Nat × Int)
deriving Repr

/-- `submitOrder` (payload shape of `src/js/main.js`): fail fast unless the
form validates; build the order payload; build `spaceUpdates`; POST the
order; if the POST resolves, issue one PUT per `spaceUpdates` entry in
parallel and await all; on full success clear cart and form, otherwise
(any fetch rejecting) fall into `catch` leaving all state untouched. -/
def submitOrder (s : AppState) (net : Network) : SubmitResult :=
  if isCheckoutFormValid s.formName s.formPhone then
    let order : OrderPayload := ⟨s.formName, s.formPhone, orderLinesJs s.cart⟩
    match spaceUpdates s.lessons s.cart [] with
    | none => ⟨s, .crash, none, []⟩
    | some updates =>
        if net.postOk then
          if updates.all fun u => net.putOk u.1 then
            ⟨{ s with cart := [], formName := "", formPhone := "" }, .success,
              some order, updates⟩
          else ⟨s, .networkError, some order, updates⟩
        else ⟨s, .networkError, some order, []⟩
  else ⟨s, .invalid, none, []⟩

/-- A sequence of `addToCart` clicks, by lesson identifier. -/
def addManyToCart (s : AppState) (ops : List Nat) : AppState :=
  ops.foldl addToCart s

/-- The number of cart entries bearing a given lesson identifier. -/
def countId : List Lesson → Nat → Nat
  | [], _ => 0
  | c :: rest, id => (if c._id = id then 1 else 0) + countId rest id

/-! ## Catalog service (`src/Full Stack Backend/server.js`)

The store of record is the `lessons` collection, a list of documents.
MongoDB ObjectIds are modelled as their canonical 24-character hex strings;
`new ObjectId(lessonId)` throwing a `BSONError` on a malformed string is
modelled by the well-formedness check `isValidObjectId`. -/

/-- A lesson document of the `lessons` collection. -/
structure DbLesson where
  _id : String
  subject : String
  location : String
  price : Int
  spaces : Int
  image : String
deriving Repr, DecidableEq

/-- The JSON body of a `PUT /lessons/:id` request, one optional value per
lesson field the client may send (typically just `spaces`). -/
structure UpdateBody where
  subject : Option String
  location : Option String
  price : Option Int
  spaces : Option Int
  image : Option String
deriving Repr, DecidableEq

/-- `$set updateData`: each field present in the body replaces the
document's field; absent fields are left alone. -/
def applyUpdate (l : DbLesson) (u : UpdateBody) : DbLesson :=
  { _id := l._id,
    subject := u.subject.getD l.subject,
    location := u.location.getD l.location,
    price := u.price.getD l.price,
    spaces := u.spaces.getD l.spaces,
    image := u.image.getD l.image }

/-- `updateOne({_id: id}, {$set: updateData})`: update the first matching
document. -/
def updateFirstDoc : List DbLesson → String → UpdateBody → List DbLesson
  | [], _, _ => []
  | l :: rest, id, u =>
      if l._id = id then applyUpdate l u :: rest else l :: updateFirstDoc rest id u

/-- A hex digit, upper or lower case. -/
def isHexChar (c : Char) : Bool :=
  isDigitChar c || (97 ≤ c.toNat && c.toNat ≤ 102) || (65 ≤ c.toNat && c.toNat ≤ 70)

/-- Whether `new ObjectId(s)` succeeds: a 24-character hex string. -/
def isValidObjectId (s : String) : Bool :=
  s.data.length = 24 && s.data.all isHexChar

/-- The response of the `PUT /lessons/:id` handler: `200` with the new
store, `404 Lesson not found`, or `400 Invalid Lesson ID format`. -/
inductive PutResult where
  | ok (store : List DbLesson)
  | notFound
  | badId
deriving Repr, DecidableEq

/-- The `PUT /lessons/:id` handler: `new ObjectId(lessonId)` throws on a
malformed id (caught as `BSONError` → 400); `updateOne` with
`matchedCount === 0` → 404; otherwise `$set` the body's fields into the
matching document. -/
def putLesson (store : List DbLesson) (id : String) (u : UpdateBody) : PutResult :=
  if !isValidObjectId id then .badId
  else if store.all fun l => !(l._id == id) then .notFound
  else .ok (updateFirstDoc store id u)

/-- Modelled from the spec: the store-of-record invariant
"spaces ≥ 0 at all times". -/
def storeNonNeg (store : List DbLesson) : Bool :=
  store.all fun l => decide (0 ≤ l.spaces)

/-- An update body that touches nothing. -/
def emptyUpdate : UpdateBody := ⟨none, none, none, none, none⟩

/-- A sample lesson document. -/
def mathsDoc : DbLesson :=
  { _id := "65a1b2c3d4e5f60718293a4b", subject := "Mathematics",
    location := "Hendon", price := 100, spaces := 5, image := "maths.png" }

/-- A second sample lesson document. -/
def musicDoc : DbLesson :=
  { _id := "65a1b2c3d4e5f60718293a4c", subject := "Music",
    location := "Golders Green", price := 80, spaces := 5, image := "music.png" }

/-! ## Search (`GET /search`)

The handler builds `new RegExp(query, 'i')` and returns the documents whose
`subject` or `location` matches it.  The regex semantics is embedded for
patterns whose only metacharacter is `.` (any character); all other
characters of the pattern match themselves case-insensitively, and the
match may start at any position (`RegExp.test` is unanchored).  Queries
that use further regex syntax (or are invalid regexes, which the real
handler answers with a 500 from its `catch`) are outside the modelled
domain; every property below about non-plain queries uses only `.`. -/

/-- One pattern character against one subject character, flag `i`:
`.` matches anything, anything else matches up to case. -/
def charMatch (p c : Char) : Bool :=
  (p == '.') || (p.toLower == c.toLower)

/-- The whole pattern matches a prefix of the text. -/
def matchHere : List Char → List Char → Bool
  | [], _ => true
  | _ :: _, [] => false
  | p :: ps, c :: cs => charMatch p c && matchHere ps cs

/-- Unanchored regex search: the pattern matches at some position. -/
def regexSearch (pat : List Char) : List Char → Bool
  | [] => matchHere pat []
  | c :: cs => matchHere pat (c :: cs) || regexSearch pat cs

/-- `new RegExp(pat, 'i').test(s)` for the modelled pattern class. -/
def regexTest (pat s : String) : Bool :=
  regexSearch pat.data s.data

/-- Plain list equality on a leading segment: the first list is literally
at the head of the second. -/
def headEq : List Char → List Char → Bool
  | [], _ => true
  | _ :: _, [] => false
  | a :: as, b :: bs => (a == b) && headEq as bs

/-- The first list occurs literally at some position of the second. -/
def substrScan (n : List Char) : List Char → Bool
  | [] => headEq n []
  | c :: cs => headEq n (c :: cs) || substrScan n cs

/-- Modelled from the spec: "subject or location case-insensitively
contains `q` as a substring". -/
def substrCI (needle hay : String) : Bool :=
  substrScan (needle.data.map Char.toLower) (hay.data.map Char.toLower)

/-- The response of the `GET /search` handler: `400` when `q` is absent or
empty, otherwise the matching documents. -/
inductive SearchResult where
  | badRequest
  | ok (results : List DbLesson)
deriving Repr, DecidableEq

/-- The `GET /search` handler: `if (!query)` → 400, else filter the
collection by `subject` or `location` matching `new RegExp(query, 'i')`. -/
def searchHandler (store : List DbLesson) (q : Option String) : SearchResult :=
  match q with
  | none => .badRequest
  | some query =>
      if query = "" then .badRequest
      else .ok (store.filter fun l => regexTest query l.subject || regexTest query l.location)

/-- A query character that is plain text for JS regexes: an ASCII letter,
digit or space (no metacharacter among these). -/
def isPlainQueryChar (c : Char) : Bool :=
  isUpperAZ c || isLowerAZ c || isDigitChar c || c.toNat = 32

/-! ## Auxiliary instances for theorems -/

/-- A network on which every call resolves. -/
def anyNet : Network := ⟨true, fun _ => true⟩

/-- A network on which the order POST rejects. -/
def failNet : Network := ⟨false, fun _ => true⟩

/-- The invariant a run of `addToCart` clicks maintains relative to the
catalog `ls0` it started from with an empty cart: every lesson's current
local `spaces` is its original count minus the number of cart entries for
it, and every cart entry's identifier is still found in the catalog. -/
def AddInv (ls0 : List Lesson) (s : AppState) : Prop :=
  (∀ id, lookupSpaces s.lessons id =
      (lookupSpaces ls0 id).map fun v => v - (countId s.cart id : Int)) ∧
  (∀ c ∈ s.cart, (findLesson s.lessons c._id).isSome = true)

/-! ## First-match update lemmas -/

theorem updateFirstById_of_none (ls : List Lesson) (id : Nat) (f : Lesson → Lesson)
    (h : findLesson ls id = none) : updateFirstById ls id f = ls := by
  induction ls with
  | nil => rfl
  | cons l rest ih =>
      by_cases hl : l._id = id
      · simp [findLesson, hl] at h
      · simp [findLesson, hl] at h
        simp [updateFirstById, hl, ih h]

theorem findLesson_updateFirstById_self (ls : List Lesson) (id : Nat)
    (f : Lesson → Lesson) (l : Lesson) (h : findLesson ls id = some l)
    (hf : (f l)._id = l._id) :
    findLesson (updateFirstById ls id f) id = some (f l) := by
  induction ls with
  | nil => simp [findLesson] at h
  | cons a rest ih =>
      by_cases ha : a._id = id
      · simp [findLesson, ha] at h
        subst h
        simp [updateFirstById, ha, findLesson, hf, ha]
      · simp [findLesson, ha] at h
        simp [updateFirstById, ha, findLesson, ih h]

theorem findLesson_updateFirstById_ne (ls : List Lesson) (id id' : Nat)
    (f : Lesson → Lesson) (hf : ∀ x, (f x)._id = x._id) (hne : id' ≠ id) :
    findLesson (updateFirstById ls id f) id' = findLesson ls id' := by
  induction ls with
  | nil => rfl
  | cons a rest ih =>
      by_cases ha : a._id = id
      · have hid : ¬ id = id' := fun hh => hne hh.symm
        simp [updateFirstById, ha, findLesson, hf a, hid]
      · simp [updateFirstById, ha, findLesson, ih]

theorem findLesson_decrement_self (ls : List Lesson) (id : Nat) (l : Lesson)
    (h : findLesson ls id = some l) :
    findLesson (decrementSpaces ls id) id = some { l with spaces := l.spaces - 1 } := by
  exact findLesson_updateFirstById_self ls id _ l h rfl

theorem findLesson_increment_self (ls : List Lesson) (id : Nat) (l : Lesson)
    (h : findLesson ls id = some l) :
    findLesson (incrementSpaces ls id) id = some { l with spaces := l.spaces + 1 } := by
  exact findLesson_updateFirstById_self ls id _ l h rfl

theorem removeFirstCart_of_absent (cart : List Lesson) (id : Nat)
    (h : ∀ c ∈ cart, c._id ≠ id) : removeFirstCart cart id = cart := by
  induction cart with
  | nil => rfl
  | cons c rest ih =>
      have hc : c._id ≠ id := h c (List.mem_cons_self c rest)
      simp [removeFirstCart, hc]
      exact ih fun x hx => h x (List.mem_cons_of_mem c hx)

/-! ## Character-class lemmas -/

theorem digit_not_nameChar (c : Char) (h : isDigitChar c = true) :
    isNameChar c = false := by
  simp [isDigitChar] at h
  simp [isNameChar, isUpperAZ, isLowerAZ, isJsSpace]
  omega

theorem letter_not_digitChar (c : Char) (h : (isUpperAZ c || isLowerAZ c) = true) :
    isDigitChar c = false := by
  simp [isUpperAZ, isLowerAZ] at h
  simp [isDigitChar]
  omega

/-! ## Claims C2, C7, C10 -/

/-- C2: `addToCart` is a no-op on a lesson with `spaces == 0`; on a lesson
with `spaces > 0` it appends a snapshot copy of that lesson to the cart and
decrements the lesson's local `spaces` by exactly 1 (and, being a pure state
transformer with no network parameter, it makes no network call). -/
theorem addToCart_spec (s : AppState) (id : Nat) (l : Lesson)
    (h : findLesson s.lessons id = some l) :
    (l.spaces = 0 → addToCart s id = s) ∧
    (0 < l.spaces →
      addToCart s id =
        { s with cart := s.cart ++ [l], lessons := decrementSpaces s.lessons id } ∧
      lookupSpaces (addToCart s id).lessons id = some (l.spaces - 1)) := by
  refine ⟨fun h0 => by simp [addToCart, h, h0], fun hpos => ⟨by simp [addToCart, h, hpos], ?_⟩⟩
  simp [addToCart, h, hpos, lookupSpaces, findLesson_decrement_self s.lessons id l h]

theorem addToCart_spec_witness :
    (0 : Int) < mathsLesson.spaces ∧
    addToCart ⟨[mathsLesson], [], "", ""⟩ 101 =
      { lessons := decrementSpaces [mathsLesson] 101, cart := [mathsLesson],
        formName := "", formPhone := "" } ∧
    soldOutLesson.spaces = 0 ∧
    addToCart ⟨[soldOutLesson], [], "", ""⟩ 102 = ⟨[soldOutLesson], [], "", ""⟩ :=
  ⟨by decide,
   ((addToCart_spec ⟨[mathsLesson], [], "", ""⟩ 101 mathsLesson (by decide)).2 (by decide)).1,
   by decide,
   (addToCart_spec ⟨[soldOutLesson], [], "", ""⟩ 102 soldOutLesson (by decide)).1 (by decide)⟩

/-- C7: for a lesson present in the catalog, `addToCart` followed by
`removeFromCart` on the entry that add created (same identifier) leaves the
lesson's local `spaces` exactly as it was: net change zero. -/
theorem add_remove_net_zero (s : AppState) (id : Nat) (l : Lesson)
    (h : findLesson s.lessons id = some l) (hpos : 0 < l.spaces) :
    lookupSpaces (removeFromCart (addToCart s id) id).lessons id = lookupSpaces s.lessons id := by
  have h1 : addToCart s id =
      { s with cart := s.cart ++ [l], lessons := decrementSpaces s.lessons id } := by
    simp [addToCart, h, hpos]
  have h2 := findLesson_decrement_self s.lessons id l h
  have h3 := findLesson_increment_self (decrementSpaces s.lessons id) id _ h2
  rw [h1]
  simp [removeFromCart, h2, lookupSpaces, h3, h]

theorem add_remove_net_zero_witness :
    (0 : Int) < mathsLesson.spaces ∧
    lookupSpaces (removeFromCart (addToCart ⟨[mathsLesson, englishLesson], [], "", ""⟩ 101) 101).lessons 101 =
      lookupSpaces [mathsLesson, englishLesson] 101 :=
  ⟨by decide,
   add_remove_net_zero ⟨[mathsLesson, englishLesson], [], "", ""⟩ 101 mathsLesson (by decide) (by decide)⟩

/-- C10: when the catalog holds a lesson with the given identifier but the
cart holds no entry with it, `removeFromCart` still increments that lesson's
local `spaces` by 1 while removing nothing from the cart: the increment is
not conditioned on a cart entry actually being removed. -/
theorem removeFromCart_no_entry (s : AppState) (id : Nat) (l : Lesson)
    (h : findLesson s.lessons id = some l) (habs : ∀ c ∈ s.cart, c._id ≠ id) :
    (removeFromCart s id).cart = s.cart ∧
    lookupSpaces (removeFromCart s id).lessons id = some (l.spaces + 1) := by
  refine ⟨by simp [removeFromCart, removeFirstCart_of_absent s.cart id habs], ?_⟩
  simp [removeFromCart, h, lookupSpaces, findLesson_increment_self s.lessons id l h]

theorem removeFromCart_no_entry_witness :
    (∀ c ∈ [englishLesson], c._id ≠ 101) ∧
    (removeFromCart ⟨[mathsLesson], [englishLesson], "", ""⟩ 101).cart = [englishLesson] ∧
    lookupSpaces (removeFromCart ⟨[mathsLesson], [englishLesson], "", ""⟩ 101).lessons 101 =
      some (mathsLesson.spaces + 1) :=
  ⟨by decide,
   (removeFromCart_no_entry ⟨[mathsLesson], [englishLesson], "", ""⟩ 101 mathsLesson
      (by decide) (by decide)).1,
   (removeFromCart_no_entry ⟨[mathsLesson], [englishLesson], "", ""⟩ 101 mathsLesson
      (by decide) (by decide)).2⟩

/-! ## Claim C6: checkout form validation -/

/-- C6: `isCheckoutFormValid` accepts exactly when the name matches
`^[A-Za-z\s]+$` and the phone matches `^\d+$`; in particular every name
containing a digit and every phone containing a letter is rejected, and
checkout is enabled only when both hold: `submitOrder` fails fast on an
invalid form, touching nothing and calling nothing. -/
theorem isCheckoutFormValid_spec (name phone : String) :
    (isCheckoutFormValid name phone = true ↔
      (nameMatches name = true ∧ phoneMatches phone = true)) ∧
    ((∃ c ∈ name.data, isDigitChar c = true) → isCheckoutFormValid name phone = false) ∧
    ((∃ c ∈ phone.data, (isUpperAZ c || isLowerAZ c) = true) →
      isCheckoutFormValid name phone = false) ∧
    (∀ s : AppState, ∀ net : Network, s.formName = name → s.formPhone = phone →
      isCheckoutFormValid name phone = false →
      submitOrder s net = ⟨s, .invalid, none, []⟩) := by
  refine ⟨by simp [isCheckoutFormValid], ?_, ?_, ?_⟩
  · rintro ⟨c, hc, hd⟩
    have hnm : nameMatches name = false := by
      cases hq : nameMatches name
      · rfl
      · exfalso
        have hq' := hq
        simp [nameMatches, matchesPlus, List.all_eq_true] at hq'
        have hall := hq'.2 c hc
        rw [digit_not_nameChar c hd] at hall
        exact Bool.false_ne_true hall
    simp [isCheckoutFormValid, hnm]
  · rintro ⟨c, hc, hd⟩
    have hpm : phoneMatches phone = false := by
      cases hq : phoneMatches phone
      · rfl
      · exfalso
        have hq' := hq
        simp [phoneMatches, matchesPlus, List.all_eq_true] at hq'
        have hall := hq'.2 c hc
        rw [letter_not_digitChar c hd] at hall
        exact Bool.false_ne_true hall
    simp [isCheckoutFormValid, hpm]
  · intro s net h1 h2 hinv
    simp [submitOrder, h1, h2, hinv]

theorem isCheckoutFormValid_spec_witness :
    isCheckoutFormValid "John Smith" "07911123456" = true ∧
    isCheckoutFormValid "J0hn" "123" = false ∧
    isCheckoutFormValid "John" "12a" = false ∧
    submitOrder ⟨[mathsLesson], [mathsLesson], "J0hn", "123"⟩ anyNet =
      ⟨⟨[mathsLesson], [mathsLesson], "J0hn", "123"⟩, .invalid, none, []⟩ :=
  ⟨(isCheckoutFormValid_spec "John Smith" "07911123456").1.mpr ⟨by decide, by decide⟩,
   (isCheckoutFormValid_spec "J0hn" "123").2.1 ⟨'0', by decide, by decide⟩,
   (isCheckoutFormValid_spec "John" "12a").2.2.1 ⟨'a', by decide, by decide⟩,
   (isCheckoutFormValid_spec "J0hn" "123").2.2.2 ⟨[mathsLesson], [mathsLesson], "J0hn", "123"⟩
     anyNet rfl rfl (by decide)⟩

/-! ## Claim C9: network failure leaves state untouched -/

/-- C9: when validation passes and any network call made by `submitOrder`
fails — the order POST rejects, or some issued space-update PUT rejects —
the user sees the error alert (`networkError` outcome) and the cart, the
form fields and the local lesson list are exactly as before: the state
returned is the state passed in, unchanged. -/
theorem submitOrder_failure_preserves_state (s : AppState) (net : Network)
    (updates : List (Nat × Int))
    (hv : isCheckoutFormValid s.formName s.formPhone = true)
    (hu : spaceUpdates s.lessons s.cart [] = some updates)
    (hfail : net.postOk = false ∨
      (net.postOk = true ∧ ∃ u ∈ updates, net.putOk u.1 = false)) :
    (submitOrder s net).state = s ∧ (submitOrder s net).outcome = .networkError := by
  rcases hfail with hp | ⟨hp, u, hmem, hput⟩
  · simp [submitOrder, hv, hu, hp]
  · have hall : (updates.all fun x => net.putOk x.1) = false := by
      cases hq : updates.all fun x => net.putOk x.1
      · rfl
      · exfalso
        have := List.all_eq_true.mp hq u hmem
        rw [hput] at this
        exact Bool.false_ne_true this
    simp [submitOrder, hv, hu, hp, hall]

theorem submitOrder_failure_preserves_state_witness :
    (submitOrder ⟨[{ mathsLesson with spaces := 4 }], [mathsLesson], "John", "123"⟩ failNet).state =
      ⟨[{ mathsLesson with spaces := 4 }], [mathsLesson], "John", "123"⟩ ∧
    (submitOrder ⟨[{ mathsLesson with spaces := 4 }], [mathsLesson], "John", "123"⟩ failNet).outcome =
      .networkError :=
  submitOrder_failure_preserves_state
    ⟨[{ mathsLesson with spaces := 4 }], [mathsLesson], "John", "123"⟩ failNet
    [(101, 4)] (by decide) (by decide) (Or.inl rfl)

/-! ## Claim C8: the order payload -/

/-- C8 counterexample: in the `src/js/main.js` variant the POSTed payload's
`lessons` field is not the list of bare cart identifiers the claim
describes — each cart entry contributes the object `{ lessonId, spaces: 1 }`
instead of the identifier itself. -/
theorem submitOrder_payload_counterexample :
    (submitOrder ⟨[{ mathsLesson with spaces := 4 }], [mathsLesson], "John", "123"⟩ anyNet).posted =
      some ⟨"John", "123", [.idWithSpaces 101 1]⟩ ∧
    [OrderLine.idWithSpaces 101 1] ≠ orderLinesSpec [mathsLesson] := by
  exact ⟨by decide, by decide⟩

/-- C8 amended: on valid input `submitOrder` POSTs exactly one payload
holding the customer's name and phone and one `lessons` entry per cart
entry — duplicates kept — each carrying that cart entry's lesson
identifier; the Full Stack Frontend and unnamed variants send the bare
identifiers (the exact shape the claim describes), while `src/js/main.js`
wraps each identifier as `{ lessonId, spaces: 1 }`. -/
theorem submitOrder_payload_spec (s : AppState) (net : Network) (o : OrderPayload)
    (hp : (submitOrder s net).posted = some o) :
    o.name = s.formName ∧ o.phone = s.formPhone ∧
    o.lessons = orderLinesJs s.cart ∧
    o.lessons.map lineId = s.cart.map Lesson._id ∧
    orderLinesFS s.cart = orderLinesSpec s.cart := by
  have ho : o = ⟨s.formName, s.formPhone, orderLinesJs s.cart⟩ := by
    by_cases hv : isCheckoutFormValid s.formName s.formPhone
    · rw [submitOrder, if_pos hv] at hp
      cases hsu : spaceUpdates s.lessons s.cart [] with
      | none => rw [hsu] at hp; simp at hp
      | some updates =>
          rw [hsu] at hp
          by_cases hpo : net.postOk = true
          · by_cases hall : (updates.all fun u => net.putOk u.1) = true
            · simp [hpo, hall] at hp
              exact hp.symm
            · simp [hpo, hall] at hp
              exact hp.symm
          · simp [hpo] at hp
            exact hp.symm
    · rw [submitOrder, if_neg hv] at hp
      simp at hp
  subst ho
  refine ⟨rfl, rfl, rfl, ?_, rfl⟩
  simp [orderLinesJs, lineId, List.map_map, Function.comp]

theorem submitOrder_payload_spec_witness :
    ("John" = "John") ∧ ("123" = "123") ∧
    ([OrderLine.idWithSpaces 101 1] = orderLinesJs [mathsLesson]) ∧
    ([OrderLine.idWithSpaces 101 1].map lineId = [mathsLesson].map Lesson._id) ∧
    (orderLinesFS [mathsLesson] = orderLinesSpec [mathsLesson]) :=
  submitOrder_payload_spec ⟨[{ mathsLesson with spaces := 4 }], [mathsLesson], "John", "123"⟩
    anyNet ⟨"John", "123", [.idWithSpaces 101 1]⟩ (by decide)

/-! ## Claims C5 and C3: the PUT handler -/

theorem updateFirstDoc_append (pre : List DbLesson) (l : DbLesson) (post : List DbLesson)
    (id : String) (u : UpdateBody) (hpre : ∀ x ∈ pre, x._id ≠ id) (hl : l._id = id) :
    updateFirstDoc (pre ++ l :: post) id u = pre ++ applyUpdate l u :: post := by
  induction pre with
  | nil => simp [updateFirstDoc, hl]
  | cons x rest ih =>
      have hx : x._id ≠ id := hpre x (List.mem_cons_self x rest)
      simp only [List.cons_append, updateFirstDoc, if_neg hx, List.append_eq]
      rw [ih fun y hy => hpre y (List.mem_cons_of_mem x hy)]

/-- C5: `PUT /lessons/:id` answers 400 exactly on malformed identifiers; on
a well-formed identifier matching no document it answers 404; on a match it
`$set`s the supplied fields into the first matching document, leaving every
other document untouched — and within that document each supplied field is
replaced while each omitted field keeps its value. -/
theorem putLesson_spec (store : List DbLesson) (id : String) (u : UpdateBody) :
    (putLesson store id u = .badId ↔ isValidObjectId id = false) ∧
    (isValidObjectId id = true →
      (∀ l ∈ store, l._id ≠ id) → putLesson store id u = .notFound) ∧
    (∀ pre l post, isValidObjectId id = true → store = pre ++ l :: post →
      (∀ x ∈ pre, x._id ≠ id) → l._id = id →
      putLesson store id u = .ok (pre ++ applyUpdate l u :: post)) ∧
    (∀ l : DbLesson, (applyUpdate l u)._id = l._id ∧
      (u.spaces = none → (applyUpdate l u).spaces = l.spaces) ∧
      (∀ v, u.spaces = some v → (applyUpdate l u).spaces = v) ∧
      (u.subject = none → (applyUpdate l u).subject = l.subject) ∧
      (u.location = none → (applyUpdate l u).location = l.location) ∧
      (u.price = none → (applyUpdate l u).price = l.price) ∧
      (u.image = none → (applyUpdate l u).image = l.image)) := by
  refine ⟨?_, ?_, ?_, ?_⟩
  · constructor
    · intro h
      cases hval : isValidObjectId id
      · rfl
      · exfalso
        rw [putLesson, hval] at h
        simp only [Bool.not_true, Bool.false_eq_true, if_false] at h
        by_cases hall : (store.all fun l => !(l._id == id)) = true
        · rw [if_pos hall] at h; exact PutResult.noConfusion h
        · rw [if_neg hall] at h; exact PutResult.noConfusion h
    · intro h
      rw [putLesson, h]
      simp
  · intro hval habs
    have hall : (store.all fun l => !(l._id == id)) = true := by
      rw [List.all_eq_true]
      intro l hl
      simp [habs l hl]
    rw [putLesson, hval]
    simp [hall]
  · intro pre l post hval hstore hpre hl
    have hmem : l ∈ store := hstore ▸ List.mem_append_right pre (List.mem_cons_self l post)
    have hall : ¬ (store.all fun x => !(x._id == id)) = true := by
      rw [List.all_eq_true]
      intro hall
      have := hall l hmem
      simp [hl] at this
    rw [putLesson, hval]
    simp only [Bool.not_true, Bool.false_eq_true, if_false, if_neg hall]
    rw [hstore, updateFirstDoc_append pre l post id u hpre hl]
  · intro l
    refine ⟨rfl, ?_, ?_, ?_, ?_, ?_, ?_⟩ <;> intro h
    · simp [applyUpdate, h]
    · intro hs; simp [applyUpdate, hs]
    · simp [applyUpdate, h]
    · simp [applyUpdate, h]
    · simp [applyUpdate, h]
    · simp [applyUpdate, h]

theorem putLesson_spec_witness :
    putLesson [mathsDoc, musicDoc] "65a1b2c3d4e5f60718293a4c"
        { emptyUpdate with spaces := some 3 } =
      .ok [mathsDoc, applyUpdate musicDoc { emptyUpdate with spaces := some 3 }] :=
  (putLesson_spec [mathsDoc, musicDoc] "65a1b2c3d4e5f60718293a4c"
      { emptyUpdate with spaces := some 3 }).2.2.1
    [mathsDoc] musicDoc [] (by decide) rfl (by decide) (by decide)

/-- C3 counterexample: a store satisfying `spaces ≥ 0` stops satisfying it
after a single `PUT /lessons/:id` carrying a negative `spaces` — the
handler merges the client-supplied value verbatim, with no clamping. -/
theorem putLesson_negative_counterexample :
    storeNonNeg [mathsDoc] = true ∧
    putLesson [mathsDoc] "65a1b2c3d4e5f60718293a4b" { emptyUpdate with spaces := some (-3) } =
      .ok [{ mathsDoc with spaces := -3 }] ∧
    storeNonNeg [{ mathsDoc with spaces := -3 }] = false := by
  exact ⟨by decide, by decide, by decide⟩

theorem storeNonNeg_updateFirstDoc (store : List DbLesson) (id : String) (u : UpdateBody)
    (hinv : storeNonNeg store = true) (hu : ∀ v, u.spaces = some v → 0 ≤ v) :
    storeNonNeg (updateFirstDoc store id u) = true := by
  induction store with
  | nil => rfl
  | cons l rest ih =>
      rw [storeNonNeg, List.all_eq_true] at hinv
      have hl : 0 ≤ l.spaces := by simpa using hinv l (List.mem_cons_self l rest)
      have hrest : storeNonNeg rest = true := by
        rw [storeNonNeg, List.all_eq_true]
        exact fun x hx => hinv x (List.mem_cons_of_mem l hx)
      by_cases hid : l._id = id
      · rw [updateFirstDoc, if_pos hid, storeNonNeg, List.all_eq_true]
        intro x hx
        rcases List.mem_cons.mp hx with hx | hx
        · subst hx
          cases hs : u.spaces with
          | none => simp [applyUpdate, hs, hl]
          | some v => simp [applyUpdate, hs, hu v hs]
        · exact hinv x (List.mem_cons_of_mem l hx)
      · rw [updateFirstDoc, if_neg hid, storeNonNeg, List.all_eq_true]
        intro x hx
        rcases List.mem_cons.mp hx with hx | hx
        · subst hx; simpa using hl
        · have := ih hrest
          rw [storeNonNeg, List.all_eq_true] at this
          exact this x hx

/-- C3 amended: the store-of-record invariant `spaces ≥ 0` is not enforced
by the service — `PUT /lessons/:id` merges the client-supplied `spaces`
verbatim — but it is preserved exactly when the supplied `spaces` value,
if any, is itself non-negative. -/
theorem putLesson_preserves_nonNeg (store store' : List DbLesson) (id : String)
    (u : UpdateBody) (hinv : storeNonNeg store = true)
    (hu : ∀ v, u.spaces = some v → 0 ≤ v)
    (hok : putLesson store id u = .ok store') :
    storeNonNeg store' = true := by
  have hstore' : store' = updateFirstDoc store id u := by
    rw [putLesson] at hok
    by_cases hval : (!isValidObjectId id) = true
    · rw [if_pos hval] at hok; exact PutResult.noConfusion hok
    · rw [if_neg hval] at hok
      by_cases hall : (store.all fun l => !(l._id == id)) = true
      · rw [if_pos hall] at hok; exact PutResult.noConfusion hok
      · rw [if_neg hall] at hok
        exact (PutResult.ok.injEq _ _ ▸ hok).symm
  rw [hstore']
  exact storeNonNeg_updateFirstDoc store id u hinv hu

theorem putLesson_preserves_nonNeg_witness :
    storeNonNeg [mathsDoc, applyUpdate musicDoc { emptyUpdate with spaces := some 2 }] = true :=
  putLesson_preserves_nonNeg [mathsDoc, musicDoc]
    [mathsDoc, applyUpdate musicDoc { emptyUpdate with spaces := some 2 }]
    "65a1b2c3d4e5f60718293a4c" { emptyUpdate with spaces := some 2 }
    (by decide) (fun v hv => by simp [emptyUpdate] at hv; omega) (by decide)

/-! ## Claim C4: search -/

theorem plain_not_dot (c : Char) (h : isPlainQueryChar c = true) : (c == '.') = false := by
  cases hq : (c == '.')
  · rfl
  · exfalso
    have hc : c = '.' := eq_of_beq hq
    subst hc
    exact absurd h (by decide)

theorem matchHere_plain (pat : List Char) (hpat : ∀ p ∈ pat, isPlainQueryChar p = true) :
    ∀ s : List Char, matchHere pat s = headEq (pat.map Char.toLower) (s.map Char.toLower) := by
  induction pat with
  | nil => intro s; cases s <;> rfl
  | cons p ps ih =>
      intro s
      cases s with
      | nil => rfl
      | cons c cs =>
          have hp : isPlainQueryChar p = true := hpat p (List.mem_cons_self p ps)
          have ihp := ih (fun x hx => hpat x (List.mem_cons_of_mem p hx)) cs
          simp only [matchHere, List.map_cons, headEq, charMatch, plain_not_dot p hp,
            Bool.false_or, ihp]

theorem regexSearch_plain (pat : List Char) (hpat : ∀ p ∈ pat, isPlainQueryChar p = true) :
    ∀ s : List Char, regexSearch pat s = substrScan (pat.map Char.toLower) (s.map Char.toLower) := by
  intro s
  induction s with
  | nil => simpa [regexSearch, substrScan] using matchHere_plain pat hpat []
  | cons c cs ih =>
      simp only [regexSearch, substrScan, List.map_cons, ih,
        matchHere_plain pat hpat (c :: cs), List.map_cons]

/-- C4 counterexample: the query `"."` is interpreted as a regular
expression, so `GET /search` returns a document whose subject and location
do not contain `"."` as a substring at all — against the claim that the
results are exactly the case-insensitive substring matches. -/
theorem search_dot_counterexample :
    searchHandler [mathsDoc] (some ".") = .ok [mathsDoc] ∧
    substrCI "." mathsDoc.subject = false ∧
    substrCI "." mathsDoc.location = false := by
  exact ⟨by decide, by decide, by decide⟩

/-- C4 amended: `GET /search` answers 400 exactly when `q` is absent or
empty; otherwise it filters by `q` interpreted as a case-insensitive
regular expression, which for plain-text queries (ASCII letters, digits,
spaces) is exactly case-insensitive substring containment over subject and
location — e.g. `q = "math"` matches subject `"Mathematics"`. -/
theorem searchHandler_spec (store : List DbLesson) (q : Option String) :
    (searchHandler store q = .badRequest ↔ (q = none ∨ q = some "")) ∧
    (∀ query, q = some query → query ≠ "" →
      (∀ c ∈ query.data, isPlainQueryChar c = true) →
      searchHandler store q =
        .ok (store.filter fun l => substrCI query l.subject || substrCI query l.location)) := by
  constructor
  · cases q with
    | none => simp [searchHandler]
    | some query =>
        by_cases hq : query = ""
        · subst hq; simp [searchHandler]
        · simp only [searchHandler, if_neg hq]
          constructor
          · intro h; exact SearchResult.noConfusion h
          · rintro (h | h)
            · exact Option.noConfusion h
            · exact absurd (Option.some.injEq _ _ ▸ h) hq
  · intro query hq hne hplain
    subst hq
    rw [searchHandler, if_neg hne]
    have hfun : ∀ l ∈ store,
        (regexTest query l.subject || regexTest query l.location) =
        (substrCI query l.subject || substrCI query l.location) := by
      intro l _
      rw [regexTest, regexTest, substrCI, substrCI,
        regexSearch_plain query.data hplain l.subject.data,
        regexSearch_plain query.data hplain l.location.data]
    rw [List.filter_congr hfun]

theorem searchHandler_spec_witness :
    searchHandler [mathsDoc, musicDoc] (some "math") =
      .ok ([mathsDoc, musicDoc].filter fun l =>
        substrCI "math" l.subject || substrCI "math" l.location) ∧
    ([mathsDoc, musicDoc].filter fun l =>
        substrCI "math" l.subject || substrCI "math" l.location) = [mathsDoc] :=
  ⟨(searchHandler_spec [mathsDoc, musicDoc] (some "math")).2 "math" rfl (by decide) (by decide),
   by decide⟩

/-! ## Claim C1: the space updates of `submitOrder` -/

theorem findLesson_eq_id (ls : List Lesson) (id : Nat) (l : Lesson)
    (h : findLesson ls id = some l) : l._id = id := by
  induction ls with
  | nil => exact Option.noConfusion h
  | cons a rest ih =>
      rw [findLesson] at h
      by_cases ha : a._id = id
      · rw [if_pos ha] at h
        exact Option.some.inj h ▸ ha
      · rw [if_neg ha] at h
        exact ih h

theorem addToCart_cases (s : AppState) (id : Nat) :
    addToCart s id = s ∨
    ∃ l, findLesson s.lessons id = some l ∧ 0 < l.spaces ∧
      addToCart s id =
        { s with cart := s.cart ++ [l], lessons := decrementSpaces s.lessons id } := by
  rw [addToCart]
  cases heq : findLesson s.lessons id with
  | none => exact Or.inl rfl
  | some l =>
      by_cases hpos : 0 < l.spaces
      · exact Or.inr ⟨l, rfl, hpos, if_pos hpos⟩
      · exact Or.inl (if_neg hpos)

theorem countId_append (xs : List Lesson) (c : Lesson) (id : Nat) :
    countId (xs ++ [c]) id = countId xs id + (if c._id = id then 1 else 0) := by
  induction xs with
  | nil => simp [countId]
  | cons x rest ih =>
      simp only [List.cons_append, countId, List.append_eq, ih, Nat.add_assoc]

theorem findLesson_updateFirstById_isSome (ls : List Lesson) (id id' : Nat)
    (f : Lesson → Lesson) (hf : ∀ x, (f x)._id = x._id) :
    (findLesson (updateFirstById ls id f) id').isSome = (findLesson ls id').isSome := by
  by_cases he : id' = id
  · subst he
    cases h : findLesson ls id' with
    | none => rw [updateFirstById_of_none ls id' f h, h]
    | some l =>
        rw [findLesson_updateFirstById_self ls id' f l h (hf l)]
        rfl
  · rw [findLesson_updateFirstById_ne ls id id' f hf he]

theorem hasKey_iff (acc : List (Nat × Int)) (id : Nat) :
    hasKey acc id = true ↔ id ∈ acc.map Prod.fst := by
  induction acc with
  | nil => simp [hasKey]
  | cons p rest ih =>
      by_cases hp : p.1 = id
      · simp [hasKey, hp]
      · simp only [hasKey, if_neg hp, ih, List.map_cons, List.mem_cons]
        constructor
        · exact Or.inr
        · rintro (h | h)
          · exact absurd h.symm hp
          · exact h

theorem AddInv_init (ls0 : List Lesson) (name phone : String) :
    AddInv ls0 ⟨ls0, [], name, phone⟩ := by
  constructor
  · intro id
    cases hopt : lookupSpaces ls0 id with
    | none => simp [hopt]
    | some w => simp [hopt, countId]
  · intro c hc
    simp at hc

theorem AddInv_step (ls0 : List Lesson) (s : AppState) (id : Nat)
    (h : AddInv ls0 s) : AddInv ls0 (addToCart s id) := by
  obtain ⟨hacc, hids⟩ := h
  rcases addToCart_cases s id with hred | ⟨l, heq, hpos, hred⟩
  · rw [hred]
    exact ⟨hacc, hids⟩
  · rw [hred]
    have hlid : l._id = id := findLesson_eq_id s.lessons id l heq
    constructor
    · intro id'
      by_cases he : id' = id
      · subst he
        have hdec := findLesson_decrement_self s.lessons id' l heq
        have hcount : countId (s.cart ++ [l]) id' = countId s.cart id' + 1 := by
          rw [countId_append, if_pos hlid]
        have hacc' := hacc id'
        rw [lookupSpaces, heq] at hacc'
        cases hopt : lookupSpaces ls0 id' with
        | none => rw [hopt] at hacc'; simp at hacc'
        | some w =>
            rw [hopt] at hacc'
            simp only [Option.map_some'] at hacc'
            have hw : l.spaces = w - (countId s.cart id' : Int) := Option.some.inj hacc'
            have hL : lookupSpaces (decrementSpaces s.lessons id') id' = some (l.spaces - 1) := by
              rw [lookupSpaces, hdec]
              simp only [Option.map_some']
            have hR : Option.map (fun v => v - (countId (s.cart ++ [l]) id' : Int))
                (some w) = some (w - ((countId s.cart id' : Int) + 1)) := by
              rw [Option.map_some', hcount]
              push_cast
              ring_nf
            show lookupSpaces (decrementSpaces s.lessons id') id' =
              Option.map (fun v => v - (countId (s.cart ++ [l]) id' : Int)) (some w)
            rw [hL, hR]
            congr 1
            omega
      · have hne := findLesson_updateFirstById_ne s.lessons id id'
          (fun x => { x with spaces := x.spaces - 1 }) (fun x => rfl) he
        have hcid : ¬ (l._id = id') := fun hh => he ((hlid ▸ hh : (id : Nat) = id')).symm
        have hcount : countId (s.cart ++ [l]) id' = countId s.cart id' := by
          rw [countId_append, if_neg hcid, Nat.add_zero]
        show lookupSpaces (decrementSpaces s.lessons id) id' =
          Option.map (fun v => v - (countId (s.cart ++ [l]) id' : Int)) (lookupSpaces ls0 id')
        rw [hcount, lookupSpaces, decrementSpaces, hne]
        exact hacc id'
    · intro c hc
      show (findLesson (decrementSpaces s.lessons id) c._id).isSome = true
      rw [decrementSpaces, findLesson_updateFirstById_isSome s.lessons id c._id
        (fun x => { x with spaces := x.spaces - 1 }) (fun x => rfl)]
      rcases List.mem_append.mp hc with hc | hc
      · exact hids c hc
      · have hcl : c = l := by simpa using hc
        subst hcl
        rw [hlid, heq]
        rfl

theorem AddInv_run (ls0 : List Lesson) (ops : List Nat) :
    ∀ s : AppState, AddInv ls0 s → AddInv ls0 (addManyToCart s ops) := by
  induction ops with
  | nil => exact fun s h => h
  | cons op rest ih =>
      intro s h
      simp only [addManyToCart, List.foldl_cons]
      exact ih (addToCart s op) (AddInv_step ls0 s op h)

theorem addToCart_form (s : AppState) (id : Nat) :
    (addToCart s id).formName = s.formName ∧ (addToCart s id).formPhone = s.formPhone := by
  rcases addToCart_cases s id with hred | ⟨l, _, _, hred⟩ <;> rw [hred] <;> exact ⟨rfl, rfl⟩

theorem addManyToCart_form (ops : List Nat) :
    ∀ s : AppState, (addManyToCart s ops).formName = s.formName ∧
      (addManyToCart s ops).formPhone = s.formPhone := by
  induction ops with
  | nil => exact fun s => ⟨rfl, rfl⟩
  | cons op rest ih =>
      intro s
      have h1 := addToCart_form s op
      have h2 := ih (addToCart s op)
      simp only [addManyToCart, List.foldl_cons] at h2 ⊢
      exact ⟨h2.1.trans h1.1, h2.2.trans h1.2⟩

theorem spaceUpdates_sound (lessons : List Lesson) :
    ∀ (cart : List Lesson) (acc us : List (Nat × Int)),
      spaceUpdates lessons cart acc = some us →
      ((acc.map Prod.fst).Nodup → (us.map Prod.fst).Nodup) ∧
      (∀ id, id ∈ us.map Prod.fst ↔ (id ∈ acc.map Prod.fst ∨ id ∈ cart.map Lesson._id)) ∧
      (∀ p ∈ us, p ∈ acc ∨ lookupSpaces lessons p.1 = some p.2) := by
  intro cart
  induction cart with
  | nil =>
      intro acc us h
      rw [spaceUpdates] at h
      obtain rfl : acc = us := Option.some.inj h
      exact ⟨fun h => h, fun id => by simp, fun p hp => Or.inl hp⟩
  | cons item rest ih =>
      intro acc us h
      rw [spaceUpdates] at h
      by_cases hk : hasKey acc item._id = true
      · rw [if_pos hk] at h
        obtain ⟨h1, h2, h3⟩ := ih acc us h
        refine ⟨h1, ?_, h3⟩
        intro id
        rw [h2 id]
        simp only [List.map_cons, List.mem_cons]
        constructor
        · rintro (h | h)
          · exact Or.inl h
          · exact Or.inr (Or.inr h)
        · rintro (h | h | h)
          · exact Or.inl h
          · subst h
            exact Or.inl ((hasKey_iff acc item._id).mp hk)
          · exact Or.inr h
      · rw [if_neg hk] at h
        cases hf : findLesson lessons item._id with
        | none => rw [hf] at h; exact Option.noConfusion h
        | some l =>
            rw [hf] at h
            obtain ⟨h1, h2, h3⟩ := ih (acc ++ [(item._id, l.spaces)]) us h
            refine ⟨?_, ?_, ?_⟩
            · intro hnd
              apply h1
              rw [List.map_append, List.nodup_append]
              refine ⟨hnd, List.nodup_singleton _, ?_⟩
              intro a ha hb
              simp only [List.map_cons, List.map_nil, List.mem_singleton] at hb
              subst hb
              exact hk ((hasKey_iff acc item._id).mpr ha)
            · intro id
              rw [h2 id]
              simp only [List.map_append, List.map_cons, List.map_nil, List.mem_append,
                List.mem_cons, List.mem_singleton, List.not_mem_nil, or_false]
              tauto
            · intro p hp
              rcases h3 p hp with hmem | hlook
              · rcases List.mem_append.mp hmem with hmem | hmem
                · exact Or.inl hmem
                · have hpe : p = (item._id, l.spaces) := by simpa using hmem
                  subst hpe
                  refine Or.inr ?_
                  rw [lookupSpaces, hf]
                  rfl
              · exact Or.inr hlook

theorem spaceUpdates_isSome (lessons : List Lesson) :
    ∀ (cart : List Lesson) (acc : List (Nat × Int)),
      (∀ c ∈ cart, (findLesson lessons c._id).isSome = true) →
      ∃ us, spaceUpdates lessons cart acc = some us := by
  intro cart
  induction cart with
  | nil => exact fun acc _ => ⟨acc, rfl⟩
  | cons item rest ih =>
      intro acc hall
      rw [spaceUpdates]
      by_cases hk : hasKey acc item._id = true
      · rw [if_pos hk]
        exact ih acc fun c hc => hall c (List.mem_cons_of_mem item hc)
      · rw [if_neg hk]
        cases hf : findLesson lessons item._id with
        | none =>
            have hsome := hall item (List.mem_cons_self item rest)
            rw [hf] at hsome
            exact absurd hsome (by simp)
        | some l => exact ih _ fun c hc => hall c (List.mem_cons_of_mem item hc)

/-- C1: from any catalog, an empty cart and any sequence of `addToCart`
clicks — in particular one putting two or more entries for the same lesson
in the cart — the space updates `submitOrder` computes have pairwise
distinct keys covering exactly the identifiers in the cart (one update per
distinct identifier), each carrying the lesson's final local space count,
which equals its original count minus the number of cart entries for it;
and whenever validation passes and the order POST resolves, these entries
are exactly the PUT calls `submitOrder` issues. -/
theorem submitOrder_updates_spec (ls0 : List Lesson) (name phone : String)
    (ops : List Nat) (net : Network) (s : AppState) (us : List (Nat × Int))
    (hs : s = addManyToCart ⟨ls0, [], name, phone⟩ ops)
    (hsu : spaceUpdates s.lessons s.cart [] = some us) :
    ((us.map Prod.fst).Nodup) ∧
    (∀ id, id ∈ us.map Prod.fst ↔ id ∈ s.cart.map Lesson._id) ∧
    (∀ p ∈ us, lookupSpaces s.lessons p.1 = some p.2) ∧
    (∀ p ∈ us, lookupSpaces ls0 p.1 = some (p.2 + (countId s.cart p.1 : Int))) ∧
    (isCheckoutFormValid name phone = true → net.postOk = true →
      (submitOrder s net).putCalls = us) := by
  subst hs
  obtain ⟨hacc, hids⟩ :=
    AddInv_run ls0 ops ⟨ls0, [], name, phone⟩ (AddInv_init ls0 name phone)
  obtain ⟨h1, h2, h3⟩ := spaceUpdates_sound _ _ [] us hsu
  have hlook : ∀ p ∈ us,
      lookupSpaces (addManyToCart ⟨ls0, [], name, phone⟩ ops).lessons p.1 = some p.2 := by
    intro p hp
    rcases h3 p hp with hmem | hlookp
    · simp at hmem
    · exact hlookp
  refine ⟨h1 (by simp), ?_, hlook, ?_, ?_⟩
  · intro id
    rw [h2 id]
    simp
  · intro p hp
    have hlp := hlook p hp
    have hap := hacc p.1
    rw [hlp] at hap
    cases hopt : lookupSpaces ls0 p.1 with
    | none => rw [hopt] at hap; simp at hap
    | some w =>
        rw [hopt] at hap
        simp only [Option.map_some'] at hap
        have hw := Option.some.inj hap
        congr 1
        omega
  · intro hv hpost
    have hform := addManyToCart_form ops ⟨ls0, [], name, phone⟩
    have hform1 : (addManyToCart ⟨ls0, [], name, phone⟩ ops).formName = name := hform.1
    have hform2 : (addManyToCart ⟨ls0, [], name, phone⟩ ops).formPhone = phone := hform.2
    rw [submitOrder, hform1, hform2, if_pos hv, hsu]
    by_cases hall : (us.all fun u => net.putOk u.1) = true
    · simp only [hpost, if_true, if_pos hall]
    · simp only [hpost, if_true, if_neg hall]

theorem submitOrder_updates_spec_witness :
    ([((101 : Nat), (3 : Int))].map Prod.fst).Nodup ∧
    (submitOrder (addManyToCart ⟨[mathsLesson, englishLesson], [], "John", "123"⟩ [101, 101])
        anyNet).putCalls = [(101, 3)] :=
  ⟨(submitOrder_updates_spec [mathsLesson, englishLesson] "John" "123" [101, 101] anyNet
      (addManyToCart ⟨[mathsLesson, englishLesson], [], "John", "123"⟩ [101, 101])
      [(101, 3)] rfl (by decide)).1,
   (submitOrder_updates_spec [mathsLesson, englishLesson] "John" "123" [101, 101] anyNet
      (addManyToCart ⟨[mathsLesson, englishLesson], [], "John", "123"⟩ [101, 101])
      [(101, 3)] rfl (by decide)).2.2.2.2 (by decide) rfl⟩
